import Mathlib

/-!
Verification of the ECG arrhythmia diagnosis pipeline (`backend/main.py`).

The signal conditioner (`preprocess_input`) and the diagnosis mapper (the
tail of `predict`) are shallowly embedded over `List ℚ`: amplitude samples
and probabilities are exact rationals (every IEEE double is a rational),
and `scipy.signal.lfilter` is embedded as the direct-form recursive filter
it documents, parametric in the transfer-function coefficient lists `b`
and `a` that `scipy.signal.butter` returns.
-/

namespace ECG

/-- Truncating dot product: `Σ cs[k] * vs[k]` over the common prefix of the
two lists.  Used to form the convolution terms of the recursive filter. -/
def dotTrunc : List ℚ → List ℚ → ℚ
  | [], _ => 0
  | _, [] => 0
  | c :: cs, v :: vs => c * v + dotTrunc cs vs

/-- Core loop of `scipy.signal.lfilter`: processes the input left to right,
keeping the already-consumed inputs (`xrev`) and already-produced outputs
(`yrev`) most-recent-first, and emits
`y[n] = (Σ b[k]·x[n-k] − Σ a[k+1]·y[n-1-k]) / a[0]`. -/
def lfilterCore (b atail : List ℚ) (a0 : ℚ) : List ℚ → List ℚ → List ℚ → List ℚ
  | _, _, [] => []
  | xrev, yrev, x :: xs =>
    let xrev2 := x :: xrev
    let y := (dotTrunc b xrev2 - dotTrunc atail yrev) / a0
    y :: lfilterCore b atail a0 xrev2 (y :: yrev) xs

/-- The scipy function `lfilter(b, a, x)`: causal IIR filter in transfer-function
form applied over the full input sequence in one pass. -/
def lfilter (b a : List ℚ) (x : List ℚ) : List ℚ :=
  lfilterCore b a.tail (a.headD 1) [] [] x

/-- Function `butter_lowpass_filter` from `main.py`, with the Butterworth
coefficients `(b, a)` produced by `scipy.signal.butter` (order 5,
normalized cutoff 45/62.5) taken as parameters: the filter design runs in
scipy, outside this repository, and yields some fixed pair of
floating-point (hence rational) coefficient lists with `a[0] = 1`. -/
def butter_lowpass_filter (b a : List ℚ) (data : List ℚ) : List ℚ :=
  lfilter b a data

/-- Numpy minimum (`np.min`) on a non-empty sequence (the empty case never feeds the
claims below, which all assume a non-empty signal). -/
def npMin : List ℚ → ℚ
  | [] => 0
  | [x] => x
  | x :: y :: ys => min x (npMin (y :: ys))

/-- Numpy maximum (`np.max`) on a non-empty sequence. -/
def npMax : List ℚ → ℚ
  | [] => 0
  | [x] => x
  | x :: y :: ys => max x (npMax (y :: ys))

/-- Min-max normalization step of `preprocess_input`:
`(filtered - np.min(filtered)) / (np.max(filtered) - np.min(filtered))`,
applied elementwise. -/
def normalize (ys : List ℚ) : List ℚ :=
  ys.map (fun v => (v - npMin ys) / (npMax ys - npMin ys))

/-- Length-fitting step of `preprocess_input`: truncate to the first 187
samples when longer, right-pad with zeros when shorter, pass through when
exactly 187. -/
def fit187 (zs : List ℚ) : List ℚ :=
  if zs.length > 187 then zs.take 187
  else if zs.length < 187 then zs ++ List.replicate (187 - zs.length) 0
  else zs

/-- Function `preprocess_input` from `main.py`: filter, min-max normalize, then fit
to exactly 187 samples.  The `(1, n, 1)` reshape is identity on the data,
so the tensor is kept as the flat sample list. -/
def preprocess_input (b a : List ℚ) (signal : List ℚ) : List ℚ :=
  fit187 (normalize (butter_lowpass_filter b a signal))

/-! ### Basic facts about `npMin` and `npMax` -/

theorem npMin_cons (x : ℚ) (xs : List ℚ) (h : xs ≠ []) :
    npMin (x :: xs) = min x (npMin xs) := by
  cases xs with
  | nil => exact absurd rfl h
  | cons y ys => rfl

theorem npMax_cons (x : ℚ) (xs : List ℚ) (h : xs ≠ []) :
    npMax (x :: xs) = max x (npMax xs) := by
  cases xs with
  | nil => exact absurd rfl h
  | cons y ys => rfl

theorem npMin_le_of_mem {v : ℚ} {l : List ℚ} (hv : v ∈ l) : npMin l ≤ v := by
  induction l with
  | nil => cases hv
  | cons x xs ih =>
    cases xs with
    | nil =>
      rcases List.mem_singleton.mp hv with rfl
      exact le_refl _
    | cons y ys =>
      rw [npMin_cons x (y :: ys) (by simp)]
      rcases List.mem_cons.mp hv with rfl | hv2
      · exact min_le_left _ _
      · exact le_trans (min_le_right _ _) (ih hv2)

theorem le_npMax_of_mem {v : ℚ} {l : List ℚ} (hv : v ∈ l) : v ≤ npMax l := by
  induction l with
  | nil => cases hv
  | cons x xs ih =>
    cases xs with
    | nil =>
      rcases List.mem_singleton.mp hv with rfl
      exact le_refl _
    | cons y ys =>
      rw [npMax_cons x (y :: ys) (by simp)]
      rcases List.mem_cons.mp hv with rfl | hv2
      · exact le_max_left _ _
      · exact le_trans (ih hv2) (le_max_right _ _)

theorem npMin_mem {l : List ℚ} (h : l ≠ []) : npMin l ∈ l := by
  induction l with
  | nil => exact absurd rfl h
  | cons x xs ih =>
    cases xs with
    | nil => simp [npMin]
    | cons y ys =>
      rw [npMin_cons x (y :: ys) (by simp)]
      rcases min_cases x (npMin (y :: ys)) with ⟨he, _⟩ | ⟨he, _⟩
      · rw [he]; exact List.mem_cons_self _ _
      · rw [he]; exact List.mem_cons_of_mem _ (ih (by simp))

theorem npMax_mem {l : List ℚ} (h : l ≠ []) : npMax l ∈ l := by
  induction l with
  | nil => exact absurd rfl h
  | cons x xs ih =>
    cases xs with
    | nil => simp [npMax]
    | cons y ys =>
      rw [npMax_cons x (y :: ys) (by simp)]
      rcases max_cases x (npMax (y :: ys)) with ⟨he, _⟩ | ⟨he, _⟩
      · rw [he]; exact List.mem_cons_self _ _
      · rw [he]; exact List.mem_cons_of_mem _ (ih (by simp))

/-! ### Basic facts about the filter embedding -/

theorem lfilterCore_length (b atail : List ℚ) (a0 : ℚ) :
    ∀ (xs xrev yrev : List ℚ),
      (lfilterCore b atail a0 xrev yrev xs).length = xs.length := by
  intro xs
  induction xs with
  | nil => intro xrev yrev; rfl
  | cons x xs ih => intro xrev yrev; simp [lfilterCore, ih]

theorem lfilter_length (b a x : List ℚ) : (lfilter b a x).length = x.length :=
  lfilterCore_length b a.tail (a.headD 1) x [] []

theorem lfilterCore_take (b atail : List ℚ) (a0 : ℚ) :
    ∀ (xs : List ℚ) (n : ℕ) (xrev yrev : List ℚ),
      lfilterCore b atail a0 xrev yrev (xs.take n) =
        (lfilterCore b atail a0 xrev yrev xs).take n := by
  intro xs
  induction xs with
  | nil => intro n xrev yrev; simp [lfilterCore]
  | cons x xs ih =>
    intro n xrev yrev
    cases n with
    | zero => simp [lfilterCore]
    | succ m => simp [lfilterCore, ih]

/-- Causality of `lfilter`: the first `n` outputs depend only on the first `n`
inputs. -/
theorem lfilter_take (b a x : List ℚ) (n : ℕ) :
    lfilter b a (x.take n) = (lfilter b a x).take n :=
  lfilterCore_take b a.tail (a.headD 1) x n [] []

theorem lfilterCore_id :
    ∀ (xs xrev yrev : List ℚ), lfilterCore [1] [] 1 xrev yrev xs = xs := by
  intro xs
  induction xs with
  | nil => intro xrev yrev; rfl
  | cons x xs ih => intro xrev yrev; simp [lfilterCore, dotTrunc, ih]

/-- The identity filter (`b = [1]`, `a = [1]`) passes the signal through
unchanged; it is used to instantiate the coefficient parameters on
concrete inputs. -/
theorem lfilter_id (x : List ℚ) : lfilter [1] [1] x = x :=
  lfilterCore_id x [] []

/-! ### Basic facts about `normalize` and `fit187` -/

theorem normalize_length (ys : List ℚ) : (normalize ys).length = ys.length := by
  simp [normalize]

theorem normalize_mem_bounds {ys : List ℚ} (h : npMin ys < npMax ys)
    {v : ℚ} (hv : v ∈ normalize ys) : 0 ≤ v ∧ v ≤ 1 := by
  rcases List.mem_map.mp hv with ⟨w, hw, rfl⟩
  have hpos : (0 : ℚ) < npMax ys - npMin ys := sub_pos.mpr h
  constructor
  · exact div_nonneg (sub_nonneg.mpr (npMin_le_of_mem hw)) hpos.le
  · rw [div_le_one hpos]
    exact sub_le_sub_right (le_npMax_of_mem hw) _

theorem fit187_length (zs : List ℚ) : (fit187 zs).length = 187 := by
  unfold fit187
  rcases lt_trichotomy zs.length 187 with hlt | heq | hgt
  · rw [if_neg (by omega), if_pos hlt]
    simp [List.length_append]
    omega
  · rw [if_neg (by omega), if_neg (by omega)]
    exact heq
  · rw [if_pos hgt]
    simp [List.length_take]
    omega

theorem fit187_mem {zs : List ℚ} {v : ℚ} (hv : v ∈ fit187 zs) :
    v ∈ zs ∨ v = 0 := by
  unfold fit187 at hv
  split at hv
  · exact Or.inl (List.take_subset _ _ hv)
  · split at hv
    · rcases List.mem_append.mp hv with h1 | h2
      · exact Or.inl h1
      · exact Or.inr (List.mem_replicate.mp h2).2
    · exact Or.inl hv

end ECG

/-- C1: for every non-empty signal whose filtered version is not constant
(`npMin < npMax` of the filtered sequence), `preprocess_input` — for any
filter coefficients, in particular those scipy returns — produces exactly
187 samples, each in the closed interval `[0, 1]`. -/
theorem C1_conditioner_shape_and_range (b a signal : List ℚ)
    (hne : signal ≠ [])
    (hnc : ECG.npMin (ECG.lfilter b a signal) < ECG.npMax (ECG.lfilter b a signal)) :
    (ECG.preprocess_input b a signal).length = 187 ∧
      ∀ v ∈ ECG.preprocess_input b a signal, 0 ≤ v ∧ v ≤ 1 := by
  constructor
  · exact ECG.fit187_length _
  · intro v hv
    unfold ECG.preprocess_input ECG.butter_lowpass_filter at hv
    rcases ECG.fit187_mem hv with hmem | rfl
    · exact ECG.normalize_mem_bounds hnc hmem
    · exact ⟨le_refl 0, zero_le_one⟩

/-- Helper for witnesses: the identity filter applied to `[0, 1]` yields a
non-constant sequence. -/
theorem nonconst_01 :
    ECG.npMin (ECG.lfilter [1] [1] [0, 1]) < ECG.npMax (ECG.lfilter [1] [1] [0, 1]) := by
  rw [ECG.lfilter_id]
  simp [ECG.npMin, ECG.npMax]

/-- Witness for C1 at the concrete signal `[0, 1]` with the identity
filter. -/
theorem C1_witness :
    (ECG.preprocess_input [1] [1] [0, 1]).length = 187 ∧
      ∀ v ∈ ECG.preprocess_input [1] [1] [0, 1], 0 ≤ v ∧ v ≤ 1 :=
  C1_conditioner_shape_and_range [1] [1] [0, 1] (by simp) nonconst_01

/-- C7: for a non-empty signal shorter than 187 samples whose filtered
version is not constant, the conditioner's output beyond the input length
is exactly the zero padding. -/
theorem C7_padding_zeros (b a x : List ℚ)
    (hne : x ≠ []) (hlt : x.length < 187)
    (hnc : ECG.npMin (ECG.lfilter b a x) < ECG.npMax (ECG.lfilter b a x)) :
    (ECG.preprocess_input b a x).drop x.length =
      List.replicate (187 - x.length) 0 := by
  unfold ECG.preprocess_input ECG.butter_lowpass_filter ECG.fit187
  have hlen : (ECG.normalize (ECG.lfilter b a x)).length = x.length := by
    rw [ECG.normalize_length, ECG.lfilter_length]
  rw [if_neg (by omega), if_pos (by omega)]
  rw [hlen, show x.length = (ECG.normalize (ECG.lfilter b a x)).length from hlen.symm,
    List.drop_left, hlen]

/-- Witness for C7 at the concrete signal `[0, 1]` with the identity
filter. -/
theorem C7_witness :
    (ECG.preprocess_input [1] [1] [0, 1]).drop ([0, 1] : List ℚ).length =
      List.replicate (187 - ([0, 1] : List ℚ).length) 0 :=
  C7_padding_zeros [1] [1] [0, 1] (by simp) (by simp) nonconst_01

/-- C2 (code evaluation): on a constant input — whose filtered version
under the pass-through coefficient instance is constant, so the min-max
denominator is zero — the pipeline raises nothing: it still emits a full
187-element tensor, with the division by zero silently absorbed (in the
floating-point source this is a tensor of NaNs). -/
theorem C2_degenerate_not_rejected :
    ECG.npMin (ECG.lfilter [1] [1] [1, 1, 1, 1, 1]) =
      ECG.npMax (ECG.lfilter [1] [1] [1, 1, 1, 1, 1]) ∧
    (ECG.preprocess_input [1] [1] [1, 1, 1, 1, 1]).length = 187 := by
  refine ⟨?_, ECG.fit187_length _⟩
  rw [ECG.lfilter_id]
  simp [ECG.npMin, ECG.npMax]

/-! ### Normalization as an affine map: minimum and maximum of the
normalized signal -/

namespace ECG

theorem npMin_map_affine (c d : ℚ) (hd : 0 < d) :
    ∀ (l : List ℚ), l ≠ [] →
      npMin (l.map fun v => (v - c) / d) = (npMin l - c) / d := by
  intro l
  induction l with
  | nil => intro h; exact absurd rfl h
  | cons x xs ih =>
    intro _
    cases xs with
    | nil => simp [npMin]
    | cons y ys =>
      rw [List.map_cons, npMin_cons _ _ (by simp), ih (by simp),
        npMin_cons x (y :: ys) (by simp), min_div_div_right hd.le,
        min_sub_sub_right]

theorem npMax_map_affine (c d : ℚ) (hd : 0 < d) :
    ∀ (l : List ℚ), l ≠ [] →
      npMax (l.map fun v => (v - c) / d) = (npMax l - c) / d := by
  intro l
  induction l with
  | nil => intro h; exact absurd rfl h
  | cons x xs ih =>
    intro _
    cases xs with
    | nil => simp [npMax]
    | cons y ys =>
      rw [List.map_cons, npMax_cons _ _ (by simp), ih (by simp),
        npMax_cons x (y :: ys) (by simp), max_div_div_right hd.le,
        max_sub_sub_right]

theorem npMin_normalize {ys : List ℚ} (hne : ys ≠ [])
    (h : npMin ys < npMax ys) : npMin (normalize ys) = 0 := by
  unfold normalize
  rw [npMin_map_affine _ _ (sub_pos.mpr h) ys hne, sub_self, zero_div]

theorem npMax_normalize {ys : List ℚ} (hne : ys ≠ [])
    (h : npMin ys < npMax ys) : npMax (normalize ys) = 1 := by
  unfold normalize
  rw [npMax_map_affine _ _ (sub_pos.mpr h) ys hne,
    div_self (ne_of_gt (sub_pos.mpr h))]

end ECG

/-- C8: min-max normalization is idempotent on signals with distinct
minimum and maximum: a second application is the identity, because the
first one sends the minimum to 0 and the maximum to 1. -/
theorem C8_normalize_idempotent (ys : List ℚ)
    (h : ECG.npMin ys < ECG.npMax ys) :
    ECG.normalize (ECG.normalize ys) = ECG.normalize ys := by
  have hne : ys ≠ [] := by
    rintro rfl
    simp [ECG.npMin, ECG.npMax] at h
  have hexp : ECG.normalize (ECG.normalize ys) =
      (ECG.normalize ys).map
        (fun v => (v - ECG.npMin (ECG.normalize ys)) /
          (ECG.npMax (ECG.normalize ys) - ECG.npMin (ECG.normalize ys))) := rfl
  rw [hexp, ECG.npMin_normalize hne h, ECG.npMax_normalize hne h]
  simp

/-- Helper for witnesses: the two-sample list `[0, 1]` has distinct
minimum and maximum. -/
theorem nonconst_list_01 : ECG.npMin [0, 1] < ECG.npMax [0, 1] := by
  simp [ECG.npMin, ECG.npMax]

/-- Witness for C8 at the concrete signal `[0, 1]`. -/
theorem C8_witness :
    ECG.normalize (ECG.normalize [0, 1]) = ECG.normalize [0, 1] :=
  C8_normalize_idempotent [0, 1] nonconst_list_01

/-! ### C5: the truncation property -/

namespace ECG

theorem npMax_append (l1 l2 : List ℚ) (h1 : l1 ≠ []) (h2 : l2 ≠ []) :
    npMax (l1 ++ l2) = max (npMax l1) (npMax l2) := by
  induction l1 with
  | nil => exact absurd rfl h1
  | cons x xs ih =>
    cases xs with
    | nil =>
      rw [List.singleton_append, npMax_cons x l2 h2]
      simp [npMax]
    | cons y ys =>
      rw [List.cons_append, npMax_cons x ((y :: ys) ++ l2) (by simp),
        ih (by simp), npMax_cons x (y :: ys) (by simp), max_assoc]

theorem npMin_append (l1 l2 : List ℚ) (h1 : l1 ≠ []) (h2 : l2 ≠ []) :
    npMin (l1 ++ l2) = min (npMin l1) (npMin l2) := by
  induction l1 with
  | nil => exact absurd rfl h1
  | cons x xs ih =>
    cases xs with
    | nil =>
      rw [List.singleton_append, npMin_cons x l2 h2]
      simp [npMin]
    | cons y ys =>
      rw [List.cons_append, npMin_cons x ((y :: ys) ++ l2) (by simp),
        ih (by simp), npMin_cons x (y :: ys) (by simp), min_assoc]

theorem npMax_replicate (n : ℕ) (hn : n ≠ 0) (c : ℚ) :
    npMax (List.replicate n c) = c := by
  induction n with
  | zero => exact absurd rfl hn
  | succ m ih =>
    cases m with
    | zero => simp [npMax]
    | succ k =>
      rw [List.replicate_succ, npMax_cons c _ (by simp), ih (by simp),
        max_self]

theorem npMin_replicate (n : ℕ) (hn : n ≠ 0) (c : ℚ) :
    npMin (List.replicate n c) = c := by
  induction n with
  | zero => exact absurd rfl hn
  | succ m ih =>
    cases m with
    | zero => simp [npMin]
    | succ k =>
      rw [List.replicate_succ, npMin_cons c _ (by simp), ih (by simp),
        min_self]

end ECG

/-- C5 amended: for inputs longer than 187 samples the conditioner's
output is exactly the filtered first 187 samples (the filter is causal,
so truncation commutes with it), normalized with the minimum and maximum
of the FULL filtered signal — not with the extremes of the truncated
portion alone. -/
theorem C5_truncation_after_filtering (b a x : List ℚ)
    (h : 187 < x.length) :
    ECG.preprocess_input b a x =
      (ECG.lfilter b a (x.take 187)).map
        (fun v => (v - ECG.npMin (ECG.lfilter b a x)) /
          (ECG.npMax (ECG.lfilter b a x) - ECG.npMin (ECG.lfilter b a x))) := by
  unfold ECG.preprocess_input ECG.butter_lowpass_filter ECG.fit187
  have hlen : (ECG.normalize (ECG.lfilter b a x)).length = x.length := by
    rw [ECG.normalize_length, ECG.lfilter_length]
  rw [if_pos (by omega)]
  rw [ECG.lfilter_take, ECG.normalize, List.map_take]

/-- Witness for the amended C5 at a concrete 188-sample input. -/
theorem C5_witness :
    187 < (List.replicate 188 (0 : ℚ)).length ∧
      ECG.preprocess_input [1] [1] (List.replicate 188 (0 : ℚ)) =
        (ECG.lfilter [1] [1] ((List.replicate 188 (0 : ℚ)).take 187)).map
          (fun v => (v - ECG.npMin (ECG.lfilter [1] [1] (List.replicate 188 (0 : ℚ)))) /
            (ECG.npMax (ECG.lfilter [1] [1] (List.replicate 188 (0 : ℚ))) -
              ECG.npMin (ECG.lfilter [1] [1] (List.replicate 188 (0 : ℚ))))) :=
  ⟨by simp only [List.length_replicate]; decide,
    C5_truncation_after_filtering [1] [1] _
      (by simp only [List.length_replicate]; decide)⟩

/-- A 188-sample input whose filtered maximum lies beyond sample 187:
`[0, 1, 0, …, 0, 2]`. -/
def sigC5 : List ℚ := 0 :: 1 :: (List.replicate 185 0 ++ [2])

/-- C5 counterexample: the claim as stated — that the first 187 output
values equal the min-max normalization of the filtered first 187 samples
alone — fails on `sigC5` (with the pass-through coefficient instance):
the full signal normalizes by max 2, the truncated one by max 1, so the
second output value is 1/2 on the left and 1 on the right. -/
theorem C5_counterexample :
    ¬ ((ECG.preprocess_input [1] [1] sigC5).take 187 =
        ECG.normalize (ECG.lfilter [1] [1] (sigC5.take 187))) := by
  intro h
  have hrepne : List.replicate 185 (0 : ℚ) ≠ [] := by
    simp only [ne_eq, List.replicate_eq_nil_iff]
    decide
  have hsig : sigC5 = (0 :: 1 :: List.replicate 185 0) ++ [2] := rfl
  have hlen : sigC5.length = 188 := by
    simp only [sigC5, List.length_cons, List.length_append,
      List.length_replicate, List.length_nil]
  have htake : sigC5.take 187 = 0 :: 1 :: List.replicate 185 0 := by
    rw [hsig,
      List.take_append_of_le_length
        (by simp only [List.length_cons, List.length_replicate]; omega),
      List.take_of_length_le
        (by simp only [List.length_cons, List.length_replicate]; omega)]
  have hmax : ECG.npMax sigC5 = 2 := by
    rw [hsig,
      ECG.npMax_append _ _ (List.cons_ne_nil _ _) (List.cons_ne_nil _ _),
      ECG.npMax_cons _ _ (List.cons_ne_nil _ _),
      ECG.npMax_cons _ _ hrepne, ECG.npMax_replicate 185 (by omega)]
    show max (max 0 (max 1 0)) (ECG.npMax [2]) = 2
    simp [ECG.npMax]
  have hmin : ECG.npMin sigC5 = 0 := by
    rw [hsig,
      ECG.npMin_append _ _ (List.cons_ne_nil _ _) (List.cons_ne_nil _ _),
      ECG.npMin_cons _ _ (List.cons_ne_nil _ _),
      ECG.npMin_cons _ _ hrepne, ECG.npMin_replicate 185 (by omega)]
    show min (min 0 (min 1 0)) (ECG.npMin [2]) = 0
    simp [ECG.npMin]
  have hmax2 : ECG.npMax (0 :: 1 :: List.replicate 185 0) = 1 := by
    rw [ECG.npMax_cons _ _ (List.cons_ne_nil _ _),
      ECG.npMax_cons _ _ hrepne, ECG.npMax_replicate 185 (by omega)]
    simp
  have hmin2 : ECG.npMin (0 :: 1 :: List.replicate 185 0) = 0 := by
    rw [ECG.npMin_cons _ _ (List.cons_ne_nil _ _),
      ECG.npMin_cons _ _ hrepne, ECG.npMin_replicate 185 (by omega)]
    simp
  rw [ECG.lfilter_id, htake] at h
  unfold ECG.preprocess_input ECG.butter_lowpass_filter ECG.fit187 at h
  rw [ECG.lfilter_id] at h
  have hlen2 : (ECG.normalize sigC5).length = 188 := by
    rw [ECG.normalize_length, hlen]
  rw [if_pos (by omega), List.take_take, min_self] at h
  unfold ECG.normalize at h
  rw [hmax, hmin, hmax2, hmin2] at h
  rw [hsig] at h
  simp only [List.map_append, List.map_cons, List.map_nil] at h
  rw [List.take_append_of_le_length
      (by simp only [List.length_cons, List.length_map,
        List.length_replicate]; omega),
    List.take_of_length_le
      (by simp only [List.length_cons, List.length_map,
        List.length_replicate]; omega)] at h
  have h1 := (List.cons.injEq _ _ _ _).mp h
  have h2 := (List.cons.injEq _ _ _ _).mp h1.2
  have hq : ((1 : ℚ) - 0) / (2 - 0) = (1 - 0) / (1 - 0) := h2.1
  norm_num at hq

/-! ### The Diagnosis Mapper (`predict`, lines 116–125) -/

namespace ECG

/-- Table `CLASS_NAMES` from `main.py`: the static index-to-name table. -/
def CLASS_NAMES : List (ℤ × String) :=
  [(0, "Normal"), (1, "Supraventricular Ectopic"),
    (2, "Ventricular Ectopic"), (3, "Fusion"), (4, "Unknown")]

/-- Python `dict.get(key, default)` on an association-list view of the
dictionary. -/
def dictGet (d : List (ℤ × String)) (k : ℤ) (dflt : String) : String :=
  match d.find? (fun p => p.1 == k) with
  | some p => p.2
  | none => dflt

/-- Numpy argmax (`np.argmax`): index of the first occurrence of the maximum value. -/
def np_argmax : List ℚ → ℕ
  | [] => 0
  | [_] => 0
  | x :: y :: ys => if npMax (y :: ys) ≤ x then 0 else np_argmax (y :: ys) + 1

/-- The `DiagnosisResponse` record assembled by `predict`. -/
structure DiagnosisRecord where
  arrhythmia_type : String
  confidence : ℚ
  class_id : ℤ

/-- The diagnosis-mapping tail of `predict`: argmax over the classifier's
probability vector, `np.max` as confidence, and `CLASS_NAMES.get` with
the `"Unknown"` fallback. -/
def predictMapper (prediction : List ℚ) : DiagnosisRecord where
  arrhythmia_type := dictGet CLASS_NAMES (np_argmax prediction : ℤ) "Unknown"
  confidence := npMax prediction
  class_id := (np_argmax prediction : ℤ)

theorem np_argmax_lt_length : ∀ (p : List ℚ), p ≠ [] → np_argmax p < p.length := by
  intro p
  induction p with
  | nil => intro h; exact absurd rfl h
  | cons x xs ih =>
    intro _
    cases xs with
    | nil => simp [np_argmax]
    | cons y ys =>
      simp only [np_argmax, List.length_cons]
      split
      · omega
      · have := ih (by simp)
        simp only [List.length_cons] at this
        omega

theorem getD_np_argmax : ∀ (p : List ℚ), p ≠ [] → p.getD (np_argmax p) 0 = npMax p := by
  intro p
  induction p with
  | nil => intro h; exact absurd rfl h
  | cons x xs ih =>
    intro _
    cases xs with
    | nil => simp [np_argmax, npMax]
    | cons y ys =>
      simp only [np_argmax]
      split
      · next h =>
        rw [List.getD_cons_zero, npMax_cons x (y :: ys) (by simp),
          max_eq_left h]
      · next h =>
        rw [List.getD_cons_succ, ih (by simp), npMax_cons x (y :: ys) (by simp),
          max_eq_right (le_of_lt (lt_of_not_le h))]

theorem getD_lt_npMax_of_lt_argmax :
    ∀ (p : List ℚ) (j : ℕ), j < np_argmax p → p.getD j 0 < npMax p := by
  intro p
  induction p with
  | nil => intro j hj; simp [np_argmax] at hj
  | cons x xs ih =>
    intro j hj
    cases xs with
    | nil => simp [np_argmax] at hj
    | cons y ys =>
      simp only [np_argmax] at hj
      split at hj
      · omega
      · next h =>
        have hxlt : x < npMax (y :: ys) := lt_of_not_le h
        rw [npMax_cons x (y :: ys) (by simp), max_eq_right hxlt.le]
        cases j with
        | zero => rw [List.getD_cons_zero]; exact hxlt
        | succ k =>
          rw [List.getD_cons_succ]
          exact ih k (by omega)

end ECG

/-- Helper: the mapper evaluated at the spec's tie-break example vector
`[0.4, 0.4, 0.1, 0.05, 0.05]`. -/
theorem predictMapper_tie_example :
    ECG.predictMapper [2/5, 2/5, 1/10, 1/20, 1/20] = ⟨"Normal", 2/5, 0⟩ := by
  have h3 : ECG.npMax [(2:ℚ)/5, 1/10, 1/20, 1/20] = 2/5 := by
    simp only [ECG.npMax]
    rw [max_self, max_eq_left (by norm_num : (1:ℚ)/20 ≤ 1/10),
      max_eq_left (by norm_num : (1:ℚ)/10 ≤ 2/5)]
  have h4 : ECG.npMax [(2:ℚ)/5, 2/5, 1/10, 1/20, 1/20] = 2/5 := by
    simp only [ECG.npMax]
    rw [max_self, max_eq_left (by norm_num : (1:ℚ)/20 ≤ 1/10),
      max_eq_left (by norm_num : (1:ℚ)/10 ≤ 2/5), max_self]
  have harg : ECG.np_argmax [(2:ℚ)/5, 2/5, 1/10, 1/20, 1/20] = 0 := by
    simp only [ECG.np_argmax]
    rw [h3, if_pos (le_refl ((2:ℚ)/5))]
  simp only [ECG.predictMapper, harg, h4, Nat.cast_zero]
  rfl

/-- C4: the Diagnosis Mapper picks an in-range index whose value is the
maximum of the probability vector, every entry strictly before the chosen
index is strictly below the maximum (first-occurrence tie-break), and the
reported confidence is exactly the value at the chosen index; at the
spec's example vector `[0.4, 0.4, 0.1, 0.05, 0.05]` it yields class 0
("Normal") with confidence `0.4`. -/
theorem C4_argmax_and_confidence (p : List ℚ) (h : p ≠ []) :
    ECG.np_argmax p < p.length
    ∧ (ECG.predictMapper p).confidence = p.getD (ECG.np_argmax p) 0
    ∧ (∀ j, j < p.length → p.getD j 0 ≤ p.getD (ECG.np_argmax p) 0)
    ∧ (∀ j, j < ECG.np_argmax p → p.getD j 0 < p.getD (ECG.np_argmax p) 0)
    ∧ ECG.predictMapper [2/5, 2/5, 1/10, 1/20, 1/20] = ⟨"Normal", 2/5, 0⟩ := by
  have hmax := ECG.getD_np_argmax p h
  refine ⟨ECG.np_argmax_lt_length p h, ?_, ?_, ?_, predictMapper_tie_example⟩
  · rw [hmax]; rfl
  · intro j hj
    rw [hmax, List.getD_eq_getElem _ _ hj]
    exact ECG.le_npMax_of_mem (List.getElem_mem hj)
  · intro j hj
    rw [hmax]
    exact ECG.getD_lt_npMax_of_lt_argmax p j hj

/-- Witness for C4 at the spec's example probability vector. -/
theorem C4_witness :
    ECG.np_argmax [2/5, 2/5, 1/10, 1/20, 1/20] <
        ([2/5, 2/5, 1/10, 1/20, 1/20] : List ℚ).length
    ∧ (ECG.predictMapper [2/5, 2/5, 1/10, 1/20, 1/20]).confidence =
        ([2/5, 2/5, 1/10, 1/20, 1/20] : List ℚ).getD
          (ECG.np_argmax [2/5, 2/5, 1/10, 1/20, 1/20]) 0
    ∧ (∀ j, j < ([2/5, 2/5, 1/10, 1/20, 1/20] : List ℚ).length →
        ([2/5, 2/5, 1/10, 1/20, 1/20] : List ℚ).getD j 0 ≤
          ([2/5, 2/5, 1/10, 1/20, 1/20] : List ℚ).getD
            (ECG.np_argmax [2/5, 2/5, 1/10, 1/20, 1/20]) 0)
    ∧ (∀ j, j < ECG.np_argmax [2/5, 2/5, 1/10, 1/20, 1/20] →
        ([2/5, 2/5, 1/10, 1/20, 1/20] : List ℚ).getD j 0 <
          ([2/5, 2/5, 1/10, 1/20, 1/20] : List ℚ).getD
            (ECG.np_argmax [2/5, 2/5, 1/10, 1/20, 1/20]) 0)
    ∧ ECG.predictMapper [2/5, 2/5, 1/10, 1/20, 1/20] = ⟨"Normal", 2/5, 0⟩ :=
  C4_argmax_and_confidence [2/5, 2/5, 1/10, 1/20, 1/20] (by simp)

/-- C6 (code evaluation): `predict` performs no length check on the
classifier output.  Fed a 4-element vector — shorter than the 5-entry
`CLASS_NAMES` table — the mapper silently produces the diagnosis
("Fusion", confidence 1, class 3) instead of raising any error. -/
theorem C6_shape_mismatch_not_rejected :
    ECG.predictMapper [0, 0, 0, 1] = ⟨"Fusion", 1, 3⟩ := by
  have hno : ¬ ((1 : ℚ) ≤ 0) := by norm_num
  have hm1 : ECG.npMax [(0:ℚ), 1] = 1 := by
    simp only [ECG.npMax]
    rw [max_eq_right zero_le_one]
  have hm2 : ECG.npMax [(0:ℚ), 0, 1] = 1 := by
    simp only [ECG.npMax]
    rw [max_eq_right zero_le_one, max_eq_right zero_le_one]
  have hm3 : ECG.npMax [(0:ℚ), 0, 0, 1] = 1 := by
    simp only [ECG.npMax]
    rw [max_eq_right zero_le_one, max_eq_right zero_le_one,
      max_eq_right zero_le_one]
  have harg : ECG.np_argmax [(0:ℚ), 0, 0, 1] = 3 := by
    simp only [ECG.np_argmax]
    rw [hm2, hm1, show ECG.npMax [(1:ℚ)] = 1 from rfl,
      if_neg hno, if_neg hno, if_neg hno]
  simp only [ECG.predictMapper, harg, hm3]
  rfl

/-- C9: `CLASS_NAMES.get(i, "Unknown")` is total: indices 0–4 map to the
five documented names, and any integer outside 0–4 falls back to
"Unknown" instead of failing. -/
theorem C9_category_lookup_total :
    (ECG.dictGet ECG.CLASS_NAMES 0 "Unknown" = "Normal"
      ∧ ECG.dictGet ECG.CLASS_NAMES 1 "Unknown" = "Supraventricular Ectopic"
      ∧ ECG.dictGet ECG.CLASS_NAMES 2 "Unknown" = "Ventricular Ectopic"
      ∧ ECG.dictGet ECG.CLASS_NAMES 3 "Unknown" = "Fusion"
      ∧ ECG.dictGet ECG.CLASS_NAMES 4 "Unknown" = "Unknown")
    ∧ ∀ i : ℤ, i < 0 ∨ 4 < i →
        ECG.dictGet ECG.CLASS_NAMES i "Unknown" = "Unknown" := by
  constructor
  · exact ⟨rfl, rfl, rfl, rfl, rfl⟩
  · intro i hi
    have h0 : ((0 : ℤ) == i) = false := by
      rw [beq_eq_false_iff_ne]; omega
    have h1 : ((1 : ℤ) == i) = false := by
      rw [beq_eq_false_iff_ne]; omega
    have h2 : ((2 : ℤ) == i) = false := by
      rw [beq_eq_false_iff_ne]; omega
    have h3 : ((3 : ℤ) == i) = false := by
      rw [beq_eq_false_iff_ne]; omega
    have h4 : ((4 : ℤ) == i) = false := by
      rw [beq_eq_false_iff_ne]; omega
    simp only [ECG.dictGet, ECG.CLASS_NAMES, List.find?, h0, h1, h2, h3, h4]

/-- Witness for C9's out-of-range clause at index 5. -/
theorem C9_witness :
    ((5 : ℤ) < 0 ∨ (4 : ℤ) < 5)
    ∧ ECG.dictGet ECG.CLASS_NAMES 5 "Unknown" = "Unknown" :=
  ⟨Or.inr (by decide), C9_category_lookup_total.2 5 (Or.inr (by decide))⟩

/-! ### The keyword chatbot (`get_chatbot_response`, lines 139–154) -/

namespace ECG

/-- Needle-at-head test over character lists, the positional step of the
Python substring operator. -/
def strStartsWith : List Char → List Char → Bool
  | [], _ => true
  | _ :: _, [] => false
  | c :: cs, d :: ds => c == d && strStartsWith cs ds

/-- Python `needle in hay` on strings: contiguous-substring containment,
checked at every suffix position. -/
def strContains (needle : List Char) : List Char → Bool
  | [] => strStartsWith needle []
  | d :: ds => strStartsWith needle (d :: ds) || strContains needle ds

/-- Table `CHATBOT_RESPONSES` from `main.py`, as a key-to-text mapping (every
access in the source uses a literal key present in the table). -/
def CHATBOT_RESPONSES (key : String) : String :=
  if key = "normal" then
    "A \x27Normal\x27 heartbeat, or Normal Sinus Rhythm, means the heart\x27s electrical impulse originates from the sinus node and follows a normal pathway, resulting in a regular rhythm and rate (usually 60-100 bpm)."
  else if key = "supraventricular ectopic" then
    "\x27Supraventricular Ectopic\x27 (SVE) beat is a premature heartbeat originating above the ventricles, often in the atria. It can feel like a skipped beat or flutter and is usually benign."
  else if key = "ventricular ectopic" then
    "\x27Ventricular Ectopic\x27 (VE) beat is a premature heartbeat originating from within the ventricles. It feels like a skipped or forceful beat. Occasional VEs are common, but frequent ones may indicate underlying issues."
  else if key = "fusion" then
    "A \x27Fusion\x27 beat occurs when a supraventricular and a ventricular impulse coincide to produce a hybrid beat. It\x27s often seen in the context of ventricular arrhythmias."
  else if key = "unknown" then
    "An \x27Unknown\x27 beat is a heartbeat that could not be confidently classified into one of the other categories by the model. This may require further analysis by a medical professional."
  else if key = "hello" then
    "Hello! I am an arrhythmia information bot. Ask me about a type of heartbeat (e.g., \x27What is a Normal beat?\x27) to learn more."
  else if key = "default" then
    "I can provide information on the following arrhythmia types: Normal, Supraventricular Ectopic, Ventricular Ectopic, and Fusion. Please ask me about one of them."
  else ""

/-- Function `get_chatbot_response` from `main.py`: lowercase the message, then
run the fixed sequence of substring checks. -/
def get_chatbot_response (message : String) : String :=
  let message_lower := message.toList.map Char.toLower
  if strContains ("normal".toList) message_lower then
    CHATBOT_RESPONSES "normal"
  else if strContains ("supraventricular".toList) message_lower then
    CHATBOT_RESPONSES "supraventricular ectopic"
  else if strContains ("ventricular".toList) message_lower then
    CHATBOT_RESPONSES "ventricular ectopic"
  else if strContains ("fusion".toList) message_lower then
    CHATBOT_RESPONSES "fusion"
  else if strContains ("unknown".toList) message_lower then
    CHATBOT_RESPONSES "unknown"
  else if strContains ("hello".toList) message_lower
      || strContains ("hi".toList) message_lower then
    CHATBOT_RESPONSES "hello"
  else CHATBOT_RESPONSES "default"

end ECG

/-- C10: because the "supraventricular" check precedes the "ventricular"
one, any message whose lowercased text contains "supraventricular" but
not "normal" gets the Supraventricular Ectopic description — never the
Ventricular Ectopic one, even though "ventricular" is a substring of
"supraventricular". -/
theorem C10_chatbot_keyword_order (message : String)
    (hs : ECG.strContains ("supraventricular".toList)
        (message.toList.map Char.toLower) = true)
    (hn : ECG.strContains ("normal".toList)
        (message.toList.map Char.toLower) = false) :
    ECG.get_chatbot_response message =
        ECG.CHATBOT_RESPONSES "supraventricular ectopic"
    ∧ ECG.get_chatbot_response message ≠
        ECG.CHATBOT_RESPONSES "ventricular ectopic" := by
  have hresp : ECG.get_chatbot_response message =
      ECG.CHATBOT_RESPONSES "supraventricular ectopic" := by
    simp only [ECG.get_chatbot_response]
    rw [hn, hs]
    simp
  refine ⟨hresp, ?_⟩
  rw [hresp]
  decide

/-- Witness for C10 at the message "what is supraventricular?". -/
theorem C10_witness :
    ECG.strContains ("supraventricular".toList)
        (("what is supraventricular?" : String).toList.map Char.toLower) = true
    ∧ ECG.strContains ("normal".toList)
        (("what is supraventricular?" : String).toList.map Char.toLower) = false
    ∧ (ECG.get_chatbot_response "what is supraventricular?" =
          ECG.CHATBOT_RESPONSES "supraventricular ectopic"
        ∧ ECG.get_chatbot_response "what is supraventricular?" ≠
          ECG.CHATBOT_RESPONSES "ventricular ectopic") :=
  ⟨by decide, by decide, C10_chatbot_keyword_order _ (by decide) (by decide)⟩
